import Mathlib

/-!
# Verification of the noture File Storage & Synchronization Engine

A shallow embedding of the file-service core of the `noture` repository
(`internal/services/file_service.go` together with the sqlc query definitions
and the SQL schema), and proofs of the specification's claims about it.

Bytes are modelled as natural numbers below 256; machine `int64` arithmetic is
modelled with `Int` (the quantities involved — storage counters and file sizes
— never approach `2^63` in the scenarios the spec describes, and Go's `int64`
arithmetic agrees with `Int` absent overflow).  Database state is modelled
explicitly as lists of rows, and each sqlc query as a function on that state.
-/

namespace Noture

/-! ## SHA-256 (crypto/sha256), over byte lists

`sha256.Sum256` from the Go standard library, specified by FIPS 180-4.
Words are `Nat` reduced modulo `2^32` where Go's `uint32` wraps. -/

def mask32 (x : Nat) : Nat := x % 4294967296

def rotr32 (n x : Nat) : Nat := mask32 ((x >>> n) ||| (x <<< (32 - n)))

def bsig0 (x : Nat) : Nat := rotr32 2 x ^^^ rotr32 13 x ^^^ rotr32 22 x

def bsig1 (x : Nat) : Nat := rotr32 6 x ^^^ rotr32 11 x ^^^ rotr32 25 x

def ssig0 (x : Nat) : Nat := rotr32 7 x ^^^ rotr32 18 x ^^^ (x >>> 3)

def ssig1 (x : Nat) : Nat := rotr32 17 x ^^^ rotr32 19 x ^^^ (x >>> 10)

def chF (x y z : Nat) : Nat := (x &&& y) ^^^ ((x ^^^ 4294967295) &&& z)

def majF (x y z : Nat) : Nat := (x &&& y) ^^^ (x &&& z) ^^^ (y &&& z)

def sha256K : List Nat :=
  [1116352408, 1899447441, 3049323471, 3921009573, 961987163, 1508970993,
   2453635748, 2870763221, 3624381080, 310598401, 607225278, 1426881987,
   1925078388, 2162078206, 2614888103, 3248222580, 3835390401, 4022224774,
   264347078, 604807628, 770255983, 1249150122, 1555081692, 1996064986,
   2554220882, 2821834349, 2952996808, 3210313671, 3336571891, 3584528711,
   113926993, 338241895, 666307205, 773529912, 1294757372, 1396182291,
   1695183700, 1986661051, 2177026350, 2456956037, 2730485921, 2820302411,
   3259730800, 3345764771, 3516065817, 3600352804, 4094571909, 275423344,
   430227734, 506948616, 659060556, 883997877, 958139571, 1322822218,
   1537002063, 1747873779, 1955562222, 2024104815, 2227730452, 2361852424,
   2428436474, 2756734187, 3204031479, 3329325298]

/-- Big-endian 32-bit word from four bytes. -/
def word32 (a b c d : Nat) : Nat := ((a * 256 + b) * 256 + c) * 256 + d

/-- The first 16 message-schedule words of a 64-byte block. -/
def blockWords : List Nat → List Nat
  | a :: b :: c :: d :: rest => word32 a b c d :: blockWords rest
  | _ => []

/-- Extend the 16 schedule words to 64 (the `w` list grows at the tail). -/
def extendWords : Nat → List Nat → List Nat
  | 0, w => w
  | n + 1, w =>
    let len := w.length
    let next := mask32 (ssig1 (w.getD (len - 2) 0) + w.getD (len - 7) 0 +
      ssig0 (w.getD (len - 15) 0) + w.getD (len - 16) 0)
    extendWords n (w ++ [next])

/-- One round of the SHA-256 compression function. -/
def sha256Round (st : Nat × Nat × Nat × Nat × Nat × Nat × Nat × Nat) (kw : Nat × Nat) :
    Nat × Nat × Nat × Nat × Nat × Nat × Nat × Nat :=
  let (a, b, c, d, e, f, g, h) := st
  let t1 := mask32 (h + bsig1 e + chF e f g + kw.1 + kw.2)
  let t2 := mask32 (bsig0 a + majF a b c)
  (mask32 (t1 + t2), a, b, c, mask32 (d + t1), e, f, g)

/-- Compress one 64-byte block into the running hash state. -/
def sha256Compress (st : Nat × Nat × Nat × Nat × Nat × Nat × Nat × Nat)
    (block : List Nat) : Nat × Nat × Nat × Nat × Nat × Nat × Nat × Nat :=
  let w := extendWords 48 (blockWords block)
  let (a, b, c, d, e, f, g, h) := (sha256K.zip w).foldl sha256Round st
  let (a0, b0, c0, d0, e0, f0, g0, h0) := st
  (mask32 (a + a0), mask32 (b + b0), mask32 (c + c0), mask32 (d + d0),
   mask32 (e + e0), mask32 (f + f0), mask32 (g + g0), mask32 (h + h0))

/-- Big-endian byte expansion, most significant first. -/
def beBytes : Nat → Nat → List Nat
  | 0, _ => []
  | n + 1, x => (x >>> (8 * n)) % 256 :: beBytes n x

/-- FIPS 180-4 padding: `128`, zeros to 56 mod 64, 8-byte big-endian bit length. -/
def sha256Pad (msg : List Nat) : List Nat :=
  let l := msg.length
  msg ++ [128] ++ List.replicate ((119 - l % 64) % 64) 0 ++ beBytes 8 (8 * l)

def chunksAux : Nat → List Nat → List (List Nat)
  | 0, _ => []
  | _, [] => []
  | n + 1, x :: xs => ((x :: xs).take 64) :: chunksAux n ((x :: xs).drop 64)

/-- Split into 64-byte blocks (the fuel, at least the list length, is spent
one unit per block; 64 bytes are consumed per step so it never runs out). -/
def chunk64 (l : List Nat) : List (List Nat) := chunksAux l.length l

/-- `sha256.Sum256`: the 32-byte SHA-256 digest of a byte list. -/
def sha256 (msg : List Nat) : List Nat :=
  let init := (1779033703, 3144134277, 1013904242, 2773480762,
               1359893119, 2600822924, 528734635, 1541459225)
  let (a, b, c, d, e, f, g, h) := (chunk64 (sha256Pad msg)).foldl sha256Compress init
  beBytes 4 a ++ beBytes 4 b ++ beBytes 4 c ++ beBytes 4 d ++
  beBytes 4 e ++ beBytes 4 f ++ beBytes 4 g ++ beBytes 4 h

/-- One lowercase hex digit, as produced by `fmt.Sprintf("%x", ...)`. -/
def hexDigit (n : Nat) : Char := if n < 10 then Char.ofNat (48 + n) else Char.ofNat (87 + n)

/-- Lowercase hex encoding of a byte list, two digits per byte (`fmt %x`). -/
def hexOfBytes (bs : List Nat) : String :=
  ⟨(bs.map (fun b => [hexDigit (b / 16), hexDigit (b % 16)])).flatten⟩

/-- `fmt.Sprintf("%x", sha256.Sum256(content))`: the file service's content hash. -/
def sha256Hex (msg : List Nat) : String := hexOfBytes (sha256 msg)

/-! ## Path handling: `filepath.Ext` and `strings.ToLower`

Paths are processed at the codepoint level.  `filepath.Ext` scans bytes, but a
multi-byte UTF-8 rune consists only of bytes `≥ 0x80`, never `.` (46) or `/`
(47), so the last dot byte after the last separator byte is exactly the last
dot rune after the last separator rune, and the codepoint-level scan returns
the same suffix.

`strings.ToLower` applies the Unicode simple lowercase mapping rune by rune
(it never changes the rune count).  `lowerCode` implements that mapping
restricted to the code points whose image lies in ASCII — `A`–`Z` (+32),
`U+0130` LATIN CAPITAL LETTER I WITH DOT ABOVE → `i`, and `U+212A` KELVIN
SIGN → `k`, which are the only such code points — and fixes every other code
point.  Every comparison the service performs is against an all-ASCII string,
and a code point whose Unicode lowercase image is outside ASCII can never make
such a comparison succeed, so `lowerCode` and `strings.ToLower` yield the same
result for every comparison in `detectMimeType` and `DetectFileFormat`, for
all paths, ASCII or not. -/

/-- The codepoints of a string. -/
def strCodes (s : String) : List Nat := s.data.map Char.toNat

/-- `strings.ToLower` on one codepoint: the Unicode simple lowercase mapping,
restricted to the code points that lower into ASCII (`A`–`Z`, `U+0130`,
`U+212A`); all other code points are left fixed (their Unicode lowercase
images are non-ASCII, so they compare unequal to ASCII either way). -/
def lowerCode (n : Nat) : Nat :=
  if 65 ≤ n ∧ n ≤ 90 then n + 32
  else if n = 304 then 105
  else if n = 8490 then 107
  else n

/-- `filepath.Ext`, scanning the reversed path: stop at a path separator,
return the suffix from the last dot (`acc` holds the scanned tail in order). -/
def extCodesAux : List Nat → List Nat → List Nat
  | [], _ => []
  | c :: rest, acc =>
    if c = 47 then []
    else if c = 46 then c :: acc
    else extCodesAux rest (c :: acc)

/-- `filepath.Ext(path)` as a codepoint list (empty when there is no dot in
the final path element). -/
def extCodes (p : String) : List Nat := extCodesAux (strCodes p).reverse []

/-- `strings.ToLower(filepath.Ext(path))` as used by `detectMimeType` and
`DetectFileFormat`. -/
def extLower (p : String) : List Nat := (extCodes p).map lowerCode

/-! ## Domain and database model

Rows of the SQL schema (`migrations/001_initial_schema.sql`), with the fields
the file service touches.  UUIDs are modelled as naturals drawn from a
per-state counter; `NOW()` is the state's fixed clock value (no claim depends
on time progressing). -/

structure Workspace where
  id : Nat
  userID : Nat
  storageLimitBytes : Int
  storageUsedBytes : Int
deriving DecidableEq, Repr

structure File where
  id : Nat
  workspaceID : Nat
  filePath : String
  contentHash : String
  content : List Nat
  sizeBytes : Int
  mimeType : String
  lastModified : Nat
  updatedAt : Nat
deriving DecidableEq, Repr

structure FileVersion where
  fileID : Nat
  versionNumber : Nat
  contentHash : String
  content : List Nat
deriving DecidableEq, Repr

structure SyncOperation where
  id : Nat
  workspaceID : Nat
  operationType : String
  clientID : String
  status : String
  errorMessage : Option String
deriving DecidableEq, Repr

structure DBState where
  workspaces : List Workspace
  files : List File
  fileVersions : List FileVersion
  syncOperations : List SyncOperation
  nextID : Nat
  now : Nat
deriving DecidableEq, Repr

/-- `domain.FileInfo`: the public projection of a file row (no raw bytes). -/
structure FileInfo where
  id : Nat
  workspaceID : Nat
  filePath : String
  contentHash : String
  sizeBytes : Int
  mimeType : String
  lastModified : Nat
  updatedAt : Nat
deriving DecidableEq, Repr

/-- `domain.FileWithContent`. -/
structure FileWithContent where
  fileInfo : FileInfo
  content : List Nat
deriving DecidableEq, Repr

/-- `domain.FileUploadRequest`. -/
structure FileUploadRequest where
  workspaceID : Nat
  filePath : String
  content : List Nat
  lastModified : Nat
  clientID : String
deriving DecidableEq, Repr

/-- `domain.FileFormat`. -/
inductive FileFormat
  | plaintext
  | markdown
  | orgmode
deriving DecidableEq, Repr

def File.toFileInfo (f : File) : FileInfo :=
  { id := f.id, workspaceID := f.workspaceID, filePath := f.filePath,
    contentHash := f.contentHash, sizeBytes := f.sizeBytes,
    mimeType := f.mimeType, lastModified := f.lastModified,
    updatedAt := f.updatedAt }

/-- The error cases `file_service.go` returns (by their error strings):
"workspace not found", "access denied: ...", "storage limit exceeded: need %d
bytes, limit %d bytes", "file not found". -/
inductive FileServiceError
  | workspaceNotFound
  | accessDenied
  | storageLimitExceeded (needed limit : Int)
  | fileNotFound
deriving DecidableEq, Repr

/-! ## The sqlc queries (from the persisted-query definitions) -/

namespace Queries

/-- `SELECT * FROM workspaces WHERE id = $1`. -/
def GetWorkspaceByID (s : DBState) (wid : Nat) : Option Workspace :=
  s.workspaces.find? (fun w => w.id == wid)

structure StorageUsageRow where
  storageLimitBytes : Int
  storageUsedBytes : Int
  fileCount : Nat
  actualStorageUsed : Int
deriving DecidableEq, Repr

/-- `GetWorkspaceStorageUsage`: the workspace's denormalized counter together
with the reconciliation sum over its file rows. -/
def GetWorkspaceStorageUsage (s : DBState) (wid : Nat) : Option StorageUsageRow :=
  (GetWorkspaceByID s wid).map fun w =>
    { storageLimitBytes := w.storageLimitBytes
      storageUsedBytes := w.storageUsedBytes
      fileCount := (s.files.filter (fun f => f.workspaceID == wid)).length
      actualStorageUsed := ((s.files.filter (fun f => f.workspaceID == wid)).map (·.sizeBytes)).sum }

/-- `SELECT * FROM files WHERE workspace_id = $1 AND file_path = $2`. -/
def GetFile (s : DBState) (wid : Nat) (path : String) : Option File :=
  s.files.find? (fun f => f.workspaceID == wid && f.filePath == path)

/-- `INSERT ... ON CONFLICT (workspace_id, file_path) DO UPDATE ... RETURNING *`.
On conflict every row at the key is overwritten (the unique constraint makes
it at most one); on first insert a fresh id is assigned. -/
def UpsertFile (s : DBState) (wid : Nat) (path contentHash : String)
    (content : List Nat) (sizeBytes : Int) (mimeType : String)
    (lastModified : Nat) : File × DBState :=
  match s.files.find? (fun f => f.workspaceID == wid && f.filePath == path) with
  | some old =>
    let upd : File :=
      { old with
          contentHash := contentHash,
          content := content,
          sizeBytes := sizeBytes,
          mimeType := mimeType,
          lastModified := lastModified,
          updatedAt := s.now }
    (upd, { s with files := s.files.map (fun f =>
      if f.workspaceID == wid && f.filePath == path then
        { f with
            contentHash := contentHash,
            content := content,
            sizeBytes := sizeBytes,
            mimeType := mimeType,
            lastModified := lastModified,
            updatedAt := s.now }
      else f) })
  | none =>
    let fnew : File :=
      { id := s.nextID,
        workspaceID := wid,
        filePath := path,
        contentHash := contentHash,
        content := content,
        sizeBytes := sizeBytes,
        mimeType := mimeType,
        lastModified := lastModified,
        updatedAt := s.now }
    (fnew, { s with files := s.files ++ [fnew], nextID := s.nextID + 1 })

/-- `UPDATE workspaces SET storage_used_bytes = $2, updated_at = NOW() WHERE id = $1`. -/
def UpdateWorkspaceStorageUsed (s : DBState) (wid : Nat) (used : Int) : DBState :=
  { s with workspaces := s.workspaces.map (fun w =>
      if w.id == wid then { w with storageUsedBytes := used } else w) }

/-- `INSERT INTO sync_operations ... RETURNING *`. -/
def CreateSyncOperation (s : DBState) (wid : Nat) (operationType clientID status : String) :
    SyncOperation × DBState :=
  let op : SyncOperation :=
    { id := s.nextID,
      workspaceID := wid,
      operationType := operationType,
      clientID := clientID,
      status := status,
      errorMessage := none }
  (op, { s with syncOperations := s.syncOperations ++ [op], nextID := s.nextID + 1 })

/-- `UPDATE sync_operations SET status = $2, error_message = $3 WHERE id = $1`. -/
def UpdateSyncOperationStatus (s : DBState) (opID : Nat) (status : String)
    (errorMessage : Option String) : DBState :=
  { s with syncOperations := s.syncOperations.map (fun op =>
      if op.id == opID then { op with status := status, errorMessage := errorMessage }
      else op) }

/-- `INSERT INTO file_versions (file_id, version_number, ...)`: fails (and is
swallowed by the caller) when the `UNIQUE(file_id, version_number)` constraint
is violated. -/
def CreateFileVersion (s : DBState) (fileID versionNumber : Nat)
    (contentHash : String) (content : List Nat) : Option DBState :=
  if s.fileVersions.any (fun v => v.fileID == fileID && v.versionNumber == versionNumber) then
    none
  else
    some { s with fileVersions := s.fileVersions ++
      [{ fileID := fileID, versionNumber := versionNumber,
         contentHash := contentHash, content := content }] }

/-- `DELETE FROM files WHERE workspace_id = $1 AND file_path = $2`. -/
def DeleteFile (s : DBState) (wid : Nat) (path : String) : DBState :=
  { s with files := s.files.filter (fun f =>
      !(f.workspaceID == wid && f.filePath == path)) }

/-- `SELECT ... FROM files WHERE workspace_id = $1 ORDER BY file_path`. -/
def ListFiles (s : DBState) (wid : Nat) : List File :=
  (s.files.filter (fun f => f.workspaceID == wid)).mergeSort
    (fun a b => a.filePath ≤ b.filePath)

end Queries

/-! ## The file service (`internal/services/file_service.go`)

Each method is a function of the database state.  Mutating methods return the
new state alongside the result; the model is the semantics in which the
database itself does not fail (`Begin`/`Commit` succeed, queries succeed),
which is the only branch reachable in a shallow embedding — all remaining
error paths (absent workspace, wrong owner, quota, absent file, the version
row's unique-constraint violation) are represented faithfully. -/

namespace FileService

/-- Go stdlib `mime.TypeByExtension` restricted to its builtin table
(`builtinTypesLower`); the key is the already-lowercased extension.  Returns
`""` when the extension is unknown, as Go does. -/
def mimeTypeByExtension (ext : List Nat) : String :=
  if ext = strCodes ".avif" then "image/avif"
  else if ext = strCodes ".css" then "text/css; charset=utf-8"
  else if ext = strCodes ".gif" then "image/gif"
  else if ext = strCodes ".htm" then "text/html; charset=utf-8"
  else if ext = strCodes ".html" then "text/html; charset=utf-8"
  else if ext = strCodes ".jpeg" then "image/jpeg"
  else if ext = strCodes ".jpg" then "image/jpeg"
  else if ext = strCodes ".js" then "text/javascript; charset=utf-8"
  else if ext = strCodes ".json" then "application/json"
  else if ext = strCodes ".mjs" then "text/javascript; charset=utf-8"
  else if ext = strCodes ".pdf" then "application/pdf"
  else if ext = strCodes ".png" then "image/png"
  else if ext = strCodes ".svg" then "image/svg+xml"
  else if ext = strCodes ".wasm" then "application/wasm"
  else if ext = strCodes ".webp" then "image/webp"
  else if ext = strCodes ".xml" then "text/xml; charset=utf-8"
  else ""

/-- `detectMimeType`: explicit overrides on the lowercased extension, then the
generic mime table, then `"text/plain"`.  (The `content` argument is unused by
the source as well.) -/
def detectMimeType (filePath : String) (_content : List Nat) : String :=
  let ext := extLower filePath
  if ext = strCodes ".md" ∨ ext = strCodes ".markdown" then "text/markdown"
  else if ext = strCodes ".org" then "text/org"
  else if ext = strCodes ".txt" then "text/plain"
  else
    let mimeType := mimeTypeByExtension ext
    if mimeType ≠ "" then mimeType else "text/plain"

/-- `DetectFileFormat`: `.md`/`.markdown` → markdown, `.org` → org-mode,
anything else → plain text, on the lowercased extension. -/
def DetectFileFormat (filePath : String) (_content : List Nat) : FileFormat :=
  let ext := extLower filePath
  if ext = strCodes ".md" ∨ ext = strCodes ".markdown" then FileFormat.markdown
  else if ext = strCodes ".org" then FileFormat.orgmode
  else FileFormat.plaintext

/-- `UploadFile`, step for step:
authorize → hash → read usage and any existing file's size → quota precheck
(early return, before the audit row and the transaction) → open the pending
sync-operation row → transaction: upsert the file row, write the projected
usage, best-effort version row (unique-constraint failure swallowed) → mark
the sync operation "success" → return the file's public projection. -/
def UploadFile (s : DBState) (req : FileUploadRequest) (userID : Nat) :
    Except FileServiceError FileInfo × DBState :=
  match Queries.GetWorkspaceByID s req.workspaceID with
  | none => (.error .workspaceNotFound, s)
  | some workspace =>
    if workspace.userID ≠ userID then (.error .accessDenied, s)
    else
      let contentHash := sha256Hex req.content
      match Queries.GetWorkspaceStorageUsage s req.workspaceID with
      | none => (.error .workspaceNotFound, s)
      | some storageInfo =>
        let currentFileSize : Int :=
          match Queries.GetFile s req.workspaceID req.filePath with
          | some existingFile => existingFile.sizeBytes
          | none => 0
        let newStorageUsage :=
          storageInfo.storageUsedBytes - currentFileSize + (req.content.length : Int)
        if newStorageUsage > storageInfo.storageLimitBytes then
          (.error (.storageLimitExceeded newStorageUsage storageInfo.storageLimitBytes), s)
        else
          let mimeType := detectMimeType req.filePath req.content
          let syncOpRes :=
            Queries.CreateSyncOperation s req.workspaceID "upload" req.clientID "pending"
          let syncOp := syncOpRes.1
          let s1 := syncOpRes.2
          let upsertRes :=
            Queries.UpsertFile s1 req.workspaceID req.filePath contentHash
              req.content (req.content.length : Int) mimeType req.lastModified
          let file := upsertRes.1
          let s2 := upsertRes.2
          let s3 := Queries.UpdateWorkspaceStorageUsed s2 req.workspaceID newStorageUsage
          let s4 :=
            match Queries.CreateFileVersion s3 file.id 1 contentHash req.content with
            | some s4 => s4
            | none => s3
          let s5 := Queries.UpdateSyncOperationStatus s4 syncOp.id "success" none
          (.ok file.toFileInfo, s5)

/-- `GetFile`: authorize, fetch, project to the metadata-only view. -/
def GetFile (s : DBState) (workspaceID : Nat) (filePath : String) (userID : Nat) :
    Except FileServiceError FileInfo :=
  match Queries.GetWorkspaceByID s workspaceID with
  | none => .error .workspaceNotFound
  | some workspace =>
    if workspace.userID ≠ userID then .error .accessDenied
    else
      match Queries.GetFile s workspaceID filePath with
      | none => .error .fileNotFound
      | some file => .ok file.toFileInfo

/-- `GetFileContent`: like `GetFile` but including the raw bytes. -/
def GetFileContent (s : DBState) (workspaceID : Nat) (filePath : String) (userID : Nat) :
    Except FileServiceError FileWithContent :=
  match Queries.GetWorkspaceByID s workspaceID with
  | none => .error .workspaceNotFound
  | some workspace =>
    if workspace.userID ≠ userID then .error .accessDenied
    else
      match Queries.GetFile s workspaceID filePath with
      | none => .error .fileNotFound
      | some file => .ok { fileInfo := file.toFileInfo, content := file.content }

/-- `ListFiles`: authorize, return the workspace's files ordered by path. -/
def ListFiles (s : DBState) (workspaceID : Nat) (userID : Nat) :
    Except FileServiceError (List FileInfo) :=
  match Queries.GetWorkspaceByID s workspaceID with
  | none => .error .workspaceNotFound
  | some workspace =>
    if workspace.userID ≠ userID then .error .accessDenied
    else .ok ((Queries.ListFiles s workspaceID).map File.toFileInfo)

/-- `DeleteFile`: authorize, fetch the file (for its size), transactionally
delete the row and write back `used - size`. -/
def DeleteFile (s : DBState) (workspaceID : Nat) (filePath : String) (userID : Nat) :
    Except FileServiceError Unit × DBState :=
  match Queries.GetWorkspaceByID s workspaceID with
  | none => (.error .workspaceNotFound, s)
  | some workspace =>
    if workspace.userID ≠ userID then (.error .accessDenied, s)
    else
      match Queries.GetFile s workspaceID filePath with
      | none => (.error .fileNotFound, s)
      | some file =>
        let s1 := Queries.DeleteFile s workspaceID filePath
        let newUsage := workspace.storageUsedBytes - file.sizeBytes
        let s2 := Queries.UpdateWorkspaceStorageUsed s1 workspaceID newUsage
        (.ok (), s2)

end FileService

/-! ## Derived notions used by the claims -/

/-- The workspace's accounted usage (`storage_used_bytes`), 0 when absent. -/
def workspaceUsed (s : DBState) (wid : Nat) : Int :=
  match Queries.GetWorkspaceByID s wid with
  | some w => w.storageUsedBytes
  | none => 0

/-- The sum of `size_bytes` over the files currently stored in a workspace. -/
def filesSizeSum (s : DBState) (wid : Nat) : Int :=
  ((s.files.filter (fun f => f.workspaceID == wid)).map (fun f => f.sizeBytes)).sum

/-- The size of the file at a logical path, 0 when none (the precheck's
`existingFileSize`). -/
def existingFileSize (s : DBState) (wid : Nat) (path : String) : Int :=
  match Queries.GetFile s wid path with
  | some f => f.sizeBytes
  | none => 0

/-- The quota precheck's `projected = currentUsed - existingFileSize + incomingSize`. -/
def projectedUsage (s : DBState) (req : FileUploadRequest) : Int :=
  workspaceUsed s req.workspaceID -
    existingFileSize s req.workspaceID req.filePath + (req.content.length : Int)

/-- A sequenced client operation against the file service. -/
inductive Operation
  | upload (req : FileUploadRequest) (userID : Nat)
  | delete (workspaceID : Nat) (filePath : String) (userID : Nat)

/-- Run one operation, keeping the state it leaves behind (failed operations
leave the state they were given). -/
def applyOperation (s : DBState) (op : Operation) : DBState :=
  match op with
  | .upload req userID => (FileService.UploadFile s req userID).2
  | .delete wid path userID => (FileService.DeleteFile s wid path userID).2

/-- Run a sequence of operations in order (no concurrent interleaving). -/
def runOperations (s : DBState) (ops : List Operation) : DBState :=
  ops.foldl applyOperation s

/-- A fresh workspace as `CreateWorkspace` persists it: empty, with
`storage_used_bytes` at its schema default 0. -/
def initialState (wid userID : Nat) (limit : Int) : DBState :=
  { workspaces := [{ id := wid, userID := userID, storageLimitBytes := limit,
                     storageUsedBytes := 0 }],
    files := [], fileVersions := [], syncOperations := [], nextID := 0, now := 0 }

/-- The path ends, case-insensitively, in the given lowercase string: its
codepoints, lowered as `strings.ToLower` lowers them (including
`U+0130` → `i` and `U+212A` → `k`), end with the given codepoints. -/
def endsWithCI (p low : String) : Bool :=
  (strCodes low).isSuffixOf ((strCodes p).map lowerCode)

/-! ## Key uniqueness, size sums and the quota invariant -/

/-- No two file rows share the `(workspace_id, file_path)` key (the schema's
unique constraint). -/
def UniqueKeys (l : List File) : Prop :=
  l.Pairwise (fun f g => ¬(f.workspaceID = g.workspaceID ∧ f.filePath = g.filePath))

/-- Workspace size sum, in a cons-friendly form. -/
def sizeSumL (l : List File) (wid : Nat) : Int :=
  (l.map (fun f => if f.workspaceID == wid then f.sizeBytes else 0)).sum

/-- The induction invariant behind the spec's quota property: every workspace
row carries the tracked id, file keys are unique (the schema's constraint),
and the denormalized usage counter equals the sum of stored file sizes. -/
def QuotaInv (s : DBState) (wid : Nat) : Prop :=
  (∀ w ∈ s.workspaces, w.id = wid) ∧ UniqueKeys s.files ∧
    workspaceUsed s wid = filesSizeSum s wid

/-! ## Concrete scenario (the spec's worked example): limit 100, used 90 -/

/-- A 90-byte file already stored in the scenario workspace. -/
def bigFile : File :=
  { id := 5, workspaceID := 1, filePath := "big.txt",
    contentHash := "fde923c1ed5e5cd32c629bdf341db32c0f72ba8f1e2afd9c194e87e0e3d9da5f",
    content := List.replicate 90 65, sizeBytes := 90,
    mimeType := "text/plain", lastModified := 0, updatedAt := 0 }

def scenarioWorkspace : Workspace :=
  { id := 1, userID := 7, storageLimitBytes := 100, storageUsedBytes := 90 }

def scenarioState : DBState :=
  { workspaces := [scenarioWorkspace],
    files := [bigFile],
    fileVersions := [{ fileID := 5, versionNumber := 1,
                       contentHash := bigFile.contentHash, content := bigFile.content }],
    syncOperations := [], nextID := 10, now := 3 }

/-- A 20-byte upload to a new path (would need 110 of 100 bytes). -/
def reqBig : FileUploadRequest :=
  { workspaceID := 1, filePath := "new.txt", content := List.replicate 20 66,
    lastModified := 4, clientID := "cli" }

/-- A 5-byte upload (`"hello"`) to a new path (fits: 95 of 100 bytes). -/
def reqSmall : FileUploadRequest :=
  { workspaceID := 1, filePath := "note.md", content := [104, 101, 108, 108, 111],
    lastModified := 4, clientID := "cli" }

/-- The file info the scenario's successful 5-byte upload returns. -/
def fi0 : FileInfo :=
  { id := 11, workspaceID := 1, filePath := "note.md",
    contentHash := "2cf24dba5fb0a30e26e83b2ac5b9e29e1b161e5c1fa7425e73043362938b9824",
    sizeBytes := 5, mimeType := "text/markdown", lastModified := 4, updatedAt := 3 }

/-- Decidable equality for `Except`, by cases. -/
instance exceptDecEq {e a : Type} [DecidableEq e] [DecidableEq a] :
    DecidableEq (Except e a) := fun x y =>
  match x, y with
  | .ok v, .ok w =>
    if h : v = w then isTrue (by rw [h]) else isFalse (fun hc => h (by cases hc; rfl))
  | .error v, .error w =>
    if h : v = w then isTrue (by rw [h]) else isFalse (fun hc => h (by cases hc; rfl))
  | .ok _, .error _ => isFalse (fun hc => Except.noConfusion hc)
  | .error _, .ok _ => isFalse (fun hc => Except.noConfusion hc)

/-! ## Extension extraction: supporting lemmas -/

theorem extCodesAux_suffix (rl acc : List Nat) :
    extCodesAux rl acc <:+ (rl.reverse ++ acc) := by
  induction rl generalizing acc with
  | nil => exact List.nil_suffix
  | cons c rest ih =>
    simp only [extCodesAux]
    split
    · exact List.nil_suffix
    · split
      · exact ⟨rest.reverse, by simp⟩
      · have h := ih (c :: acc)
        simpa [List.append_assoc] using h

theorem extCodes_suffix (p : String) : extCodes p <:+ strCodes p := by
  have h := extCodesAux_suffix (strCodes p).reverse []
  simpa using h

theorem extLower_suffix (p : String) : extLower p <:+ (strCodes p).map lowerCode :=
  List.IsSuffix.map lowerCode (extCodes_suffix p)

theorem map_eq_cons_split {f : Nat → Nat} {l : List Nat} {x : Nat} {xs : List Nat}
    (h : l.map f = x :: xs) : ∃ a l₂, l = a :: l₂ ∧ f a = x ∧ l₂.map f = xs := by
  cases l with
  | nil => simp at h
  | cons a l₂ =>
    simp only [List.map_cons, List.cons.injEq] at h
    exact ⟨a, l₂, rfl, h.1, h.2⟩

theorem map_eq_append_split {f : Nat → Nat} {t : List Nat} {l u : List Nat}
    (h : l.map f = t ++ u) : ∃ t₂ u₂, l = t₂ ++ u₂ ∧ t₂.map f = t ∧ u₂.map f = u := by
  induction t generalizing l with
  | nil => exact ⟨[], l, rfl, rfl, by simpa using h⟩
  | cons x t ih =>
    rw [List.cons_append] at h
    obtain ⟨a, l₂, rfl, hx, hrest⟩ := map_eq_cons_split h
    obtain ⟨t₂, u₂, rfl, ht, hu⟩ := ih hrest
    exact ⟨a :: t₂, u₂, rfl, by simp [hx, ht], hu⟩

theorem lowerCode_eq_dot {x : Nat} (h : lowerCode x = 46) : x = 46 := by
  unfold lowerCode at h
  split at h
  · omega
  · split at h
    · omega
    · split at h <;> omega

/-- Scanning a reversed tail of non-dot, non-separator codes and then a dot
returns the dot followed by that tail. -/
theorem extCodesAux_scan (r : List Nat) (w acc : List Nat)
    (hr : ∀ x ∈ r, x ≠ 46 ∧ x ≠ 47) :
    extCodesAux (r ++ 46 :: w) acc = 46 :: (r.reverse ++ acc) := by
  induction r generalizing acc with
  | nil => simp [extCodesAux]
  | cons c r ih =>
    have hc := hr c (by simp)
    have hrest : ∀ x ∈ r, x ≠ 46 ∧ x ≠ 47 := fun x hx => hr x (by simp [hx])
    rw [List.cons_append]
    simp only [extCodesAux, if_neg hc.2, if_neg hc.1]
    rw [ih (c :: acc) hrest]
    simp [List.append_assoc]

/-- When the lowered path ends in a dot followed by dot-free, separator-free
codes, the lowered extension is exactly that ending. -/
theorem extLower_of_ends (p : String) (t u : List Nat)
    (h : (strCodes p).map lowerCode = t ++ 46 :: u)
    (hu : ∀ x ∈ u, x ≠ 46 ∧ x ≠ 47) : extLower p = 46 :: u := by
  obtain ⟨t₂, u₃, hsplit, ht, hu₃⟩ := map_eq_append_split h
  obtain ⟨a, u₂, hu2, ha, humap⟩ := map_eq_cons_split hu₃
  have ha46 : a = 46 := lowerCode_eq_dot ha
  have hu₂ : ∀ x ∈ u₂, x ≠ 46 ∧ x ≠ 47 := by
    intro x hx
    have hmem : lowerCode x ∈ u := by
      rw [← humap]; exact List.mem_map_of_mem _ hx
    have hlx := hu _ hmem
    constructor
    · rintro rfl; exact hlx.1 (by decide)
    · rintro rfl; exact hlx.2 (by decide)
  have hrev : (strCodes p).reverse = u₂.reverse ++ 46 :: t₂.reverse := by
    rw [hsplit, hu2, ha46]
    simp [List.append_assoc]
  have hscan := extCodesAux_scan u₂.reverse t₂.reverse []
    (fun x hx => hu₂ x (List.mem_reverse.mp hx))
  have hext : extCodes p = 46 :: u₂ := by
    rw [extCodes, hrev, hscan]
    simp
  rw [extLower, hext, List.map_cons]
  have : lowerCode 46 = 46 := by decide
  rw [this, humap]

theorem endsWithCI_of_extLower {p low : String} (h : extLower p = strCodes low) :
    endsWithCI p low = true := by
  rw [endsWithCI, List.isSuffixOf_iff_suffix, ← h]
  exact extLower_suffix p

theorem extLower_of_endsWithCI {p low : String} {u : List Nat}
    (hx : strCodes low = 46 :: u) (hu : ∀ x ∈ u, x ≠ 46 ∧ x ≠ 47)
    (h : endsWithCI p low = true) : extLower p = strCodes low := by
  rw [endsWithCI, List.isSuffixOf_iff_suffix] at h
  obtain ⟨t, hts⟩ := h
  rw [hx] at hts ⊢
  exact extLower_of_ends p t u (by rw [← hts]) hu

end Noture

namespace Noture

/-! ## Claim theorems -/

theorem no_dot_sep_md : ∀ x ∈ [109, 100], x ≠ 46 ∧ x ≠ 47 := by decide

theorem no_dot_sep_markdown :
    ∀ x ∈ [109, 97, 114, 107, 100, 111, 119, 110], x ≠ 46 ∧ x ≠ 47 := by decide

theorem no_dot_sep_org : ∀ x ∈ [111, 114, 103], x ≠ 46 ∧ x ≠ 47 := by decide

/-- **C9** File-format detection is a pure function of the path's extension,
case-insensitive: every path ending in `.md` or `.markdown` (any letter case,
in the `strings.ToLower` sense — so `U+212A` counts as a `K` and `U+0130` as
an `I`) maps to markdown, every path ending in `.org` to org-mode, and every
other path — `.txt`, extensionless, `.json`, anything else — to plain text. -/
theorem detectFileFormat_extension_characterization (p : String) (content : List Nat) :
    FileService.DetectFileFormat p content =
      (if endsWithCI p ".md" || endsWithCI p ".markdown" then FileFormat.markdown
       else if endsWithCI p ".org" then FileFormat.orgmode
       else FileFormat.plaintext) := by
  by_cases h1 : endsWithCI p ".md" = true
  · have hext : extLower p = strCodes ".md" :=
      extLower_of_endsWithCI (by decide) no_dot_sep_md h1
    simp [FileService.DetectFileFormat, hext, h1]
  · by_cases h2 : endsWithCI p ".markdown" = true
    · have hext : extLower p = strCodes ".markdown" :=
        extLower_of_endsWithCI (by decide) no_dot_sep_markdown h2
      simp [FileService.DetectFileFormat, hext, h2]
    · by_cases h3 : endsWithCI p ".org" = true
      · have hext : extLower p = strCodes ".org" :=
          extLower_of_endsWithCI (by decide) no_dot_sep_org h3
        simp only [FileService.DetectFileFormat, hext, h1, h2, h3]
        decide
      · have hmd : extLower p ≠ strCodes ".md" := fun h => h1 (endsWithCI_of_extLower h)
        have hmdn : extLower p ≠ strCodes ".markdown" := fun h => h2 (endsWithCI_of_extLower h)
        have horg : extLower p ≠ strCodes ".org" := fun h => h3 (endsWithCI_of_extLower h)
        simp [FileService.DetectFileFormat, hmd, hmdn, horg, h1, h2, h3]

/-- The case an ASCII-only folding would get wrong: `U+212A` KELVIN SIGN
lowers to `k` under `strings.ToLower`, so a path ending in `.mar‹KELVIN›down`
is markdown, exactly as the Go source computes. -/
theorem kelvin_sign_path_is_markdown :
    FileService.DetectFileFormat "a.marKdown" [] = FileFormat.markdown ∧
    endsWithCI "a.marKdown" ".markdown" = true := by decide

/-- Likewise `U+0130` lowers to `i`, which reaches the mime table's `.gif`. -/
theorem dotted_capital_i_path_is_gif :
    FileService.detectMimeType "x.GİF" [] = "image/gif" := by decide



/-! ### How each query commutes with each state update -/

theorem find?_map_ite {α : Type} (p : α → Bool) (g : α → α)
    (hg : ∀ a, p a = true → p (g a) = true) :
    ∀ (l : List α) (x : α), l.find? p = some x →
      (l.map (fun a => if p a then g a else a)).find? p = some (g x) := by
  intro l
  induction l with
  | nil => intro x h; simp at h
  | cons a t ih =>
    intro x h
    by_cases hpa : p a = true
    · rw [List.find?_cons_of_pos _ hpa] at h
      cases h
      simp only [List.map_cons, if_pos hpa]
      exact List.find?_cons_of_pos _ (hg a hpa)
    · rw [List.find?_cons_of_neg _ hpa] at h
      simp only [List.map_cons, if_neg hpa]
      rw [List.find?_cons_of_neg _ hpa]
      exact ih x h

@[simp] theorem GetWorkspaceByID_CreateSyncOperation (s : DBState) (w : Nat)
    (t c st : String) (wid : Nat) :
    Queries.GetWorkspaceByID (Queries.CreateSyncOperation s w t c st).2 wid =
      Queries.GetWorkspaceByID s wid := rfl

@[simp] theorem GetWorkspaceByID_UpdateSyncOperationStatus (s : DBState) (opID : Nat)
    (st : String) (em : Option String) (wid : Nat) :
    Queries.GetWorkspaceByID (Queries.UpdateSyncOperationStatus s opID st em) wid =
      Queries.GetWorkspaceByID s wid := rfl

@[simp] theorem GetWorkspaceByID_UpsertFile (s : DBState) (w : Nat) (path ch : String)
    (c : List Nat) (sz : Int) (mt : String) (lm : Nat) (wid : Nat) :
    Queries.GetWorkspaceByID (Queries.UpsertFile s w path ch c sz mt lm).2 wid =
      Queries.GetWorkspaceByID s wid := by
  rw [Queries.UpsertFile]
  cases s.files.find? (fun f => f.workspaceID == w && f.filePath == path) <;> rfl

@[simp] theorem GetWorkspaceByID_versionStep (s : DBState) (fid v : Nat) (ch : String)
    (c : List Nat) (wid : Nat) :
    Queries.GetWorkspaceByID
      (match Queries.CreateFileVersion s fid v ch c with
        | some s' => s'
        | none => s) wid = Queries.GetWorkspaceByID s wid := by
  rw [Queries.CreateFileVersion]
  by_cases h : (s.fileVersions.any fun w => w.fileID == fid && w.versionNumber == v) = true <;>
    simp [h] <;> rfl

@[simp] theorem GetWorkspaceByID_DeleteFile (s : DBState) (w : Nat) (path : String) (wid : Nat) :
    Queries.GetWorkspaceByID (Queries.DeleteFile s w path) wid =
      Queries.GetWorkspaceByID s wid := rfl

theorem GetWorkspaceByID_update (s : DBState) (wid : Nat) (used : Int) (ws : Workspace)
    (h : Queries.GetWorkspaceByID s wid = some ws) :
    Queries.GetWorkspaceByID (Queries.UpdateWorkspaceStorageUsed s wid used) wid =
      some { ws with storageUsedBytes := used } := by
  rw [Queries.GetWorkspaceByID] at h ⊢
  rw [Queries.UpdateWorkspaceStorageUsed]
  exact find?_map_ite (fun (w : Workspace) => w.id == wid)
    (fun (w : Workspace) => { w with storageUsedBytes := used }) (fun a ha => ha) _ _ h

@[simp] theorem GetFile_CreateSyncOperation (s : DBState) (w : Nat) (t c st : String)
    (wid : Nat) (path : String) :
    Queries.GetFile (Queries.CreateSyncOperation s w t c st).2 wid path =
      Queries.GetFile s wid path := rfl

@[simp] theorem GetFile_UpdateSyncOperationStatus (s : DBState) (opID : Nat)
    (st : String) (em : Option String) (wid : Nat) (path : String) :
    Queries.GetFile (Queries.UpdateSyncOperationStatus s opID st em) wid path =
      Queries.GetFile s wid path := rfl

@[simp] theorem GetFile_UpdateWorkspaceStorageUsed (s : DBState) (w : Nat) (used : Int)
    (wid : Nat) (path : String) :
    Queries.GetFile (Queries.UpdateWorkspaceStorageUsed s w used) wid path =
      Queries.GetFile s wid path := rfl

@[simp] theorem GetFile_versionStep (s : DBState) (fid v : Nat) (ch : String)
    (c : List Nat) (wid : Nat) (path : String) :
    Queries.GetFile
      (match Queries.CreateFileVersion s fid v ch c with
        | some s' => s'
        | none => s) wid path = Queries.GetFile s wid path := by
  rw [Queries.CreateFileVersion]
  by_cases h : (s.fileVersions.any fun w => w.fileID == fid && w.versionNumber == v) = true <;>
    simp [h] <;> rfl

theorem GetFile_UpsertFile (s : DBState) (wid : Nat) (path ch : String)
    (c : List Nat) (sz : Int) (mt : String) (lm : Nat) :
    Queries.GetFile (Queries.UpsertFile s wid path ch c sz mt lm).2 wid path =
      some (Queries.UpsertFile s wid path ch c sz mt lm).1 := by
  rw [Queries.UpsertFile, Queries.GetFile]
  cases hf : s.files.find? (fun f => f.workspaceID == wid && f.filePath == path) with
  | some old =>
    simp only []
    exact find?_map_ite _ _ (fun a ha => by
      simp only [Bool.and_eq_true, beq_iff_eq] at ha ⊢
      exact ha) _ _ hf
  | none =>
    simp only [List.find?_append, hf, Option.none_orElse]
    simp [List.find?_cons]


/-- The success path of `UploadFile`, spelled out. -/
theorem upload_success_unfold (s : DBState) (req : FileUploadRequest) (userID : Nat)
    (ws : Workspace)
    (h1 : Queries.GetWorkspaceByID s req.workspaceID = some ws)
    (h2 : ws.userID = userID)
    (h3 : projectedUsage s req ≤ ws.storageLimitBytes) :
    FileService.UploadFile s req userID =
      (let s1 := (Queries.CreateSyncOperation s req.workspaceID "upload" req.clientID "pending").2
       let opID := (Queries.CreateSyncOperation s req.workspaceID "upload" req.clientID "pending").1.id
       let upsertRes := Queries.UpsertFile s1 req.workspaceID req.filePath (sha256Hex req.content)
         req.content (req.content.length : Int)
         (FileService.detectMimeType req.filePath req.content) req.lastModified
       let s3 := Queries.UpdateWorkspaceStorageUsed upsertRes.2 req.workspaceID (projectedUsage s req)
       let s4 := match Queries.CreateFileVersion s3 upsertRes.1.id 1 (sha256Hex req.content) req.content with
         | some s4 => s4
         | none => s3
       (.ok upsertRes.1.toFileInfo, Queries.UpdateSyncOperationStatus s4 opID "success" none)) := by
  have hnot : ¬(projectedUsage s req > ws.storageLimitBytes) := not_lt.mpr h3
  simp only [projectedUsage, existingFileSize, workspaceUsed, h1] at hnot ⊢
  rw [FileService.UploadFile]
  simp only [Queries.GetWorkspaceStorageUsage, h1, Option.map_some', h2, ne_eq,
    not_true_eq_false, if_false, ite_false]
  rw [if_neg hnot]
  try rfl

/-- **C2** quota precheck characterization. -/
theorem upload_quota_precheck (s : DBState) (req : FileUploadRequest) (userID : Nat)
    (ws : Workspace)
    (h1 : Queries.GetWorkspaceByID s req.workspaceID = some ws)
    (h2 : ws.userID = userID) :
    (projectedUsage s req > ws.storageLimitBytes →
      FileService.UploadFile s req userID =
        (.error (.storageLimitExceeded (projectedUsage s req) ws.storageLimitBytes), s))
    ∧ (projectedUsage s req ≤ ws.storageLimitBytes →
      (∃ fi, (FileService.UploadFile s req userID).1 = .ok fi)
      ∧ workspaceUsed (FileService.UploadFile s req userID).2 req.workspaceID =
          projectedUsage s req) := by
  constructor
  · intro h3
    simp only [projectedUsage, existingFileSize, workspaceUsed, h1] at h3 ⊢
    rw [FileService.UploadFile]
    simp only [Queries.GetWorkspaceStorageUsage, h1, Option.map_some', h2, ne_eq,
      not_true_eq_false, if_false, ite_false]
    rw [if_pos h3]
  · intro h3
    rw [upload_success_unfold s req userID ws h1 h2 h3]
    refine ⟨⟨_, rfl⟩, ?_⟩
    rw [workspaceUsed]
    simp only [GetWorkspaceByID_UpdateSyncOperationStatus, GetWorkspaceByID_versionStep]
    rw [GetWorkspaceByID_update _ req.workspaceID (projectedUsage s req) ws (by simp [h1])]

/-- The file row `UpsertFile` returns carries exactly the submitted fields. -/
theorem UpsertFile_fst (s : DBState) (wid : Nat) (path ch : String)
    (c : List Nat) (sz : Int) (mt : String) (lm : Nat) :
    (Queries.UpsertFile s wid path ch c sz mt lm).1.contentHash = ch ∧
    (Queries.UpsertFile s wid path ch c sz mt lm).1.sizeBytes = sz ∧
    (Queries.UpsertFile s wid path ch c sz mt lm).1.content = c ∧
    (Queries.UpsertFile s wid path ch c sz mt lm).1.workspaceID = wid ∧
    (Queries.UpsertFile s wid path ch c sz mt lm).1.filePath = path := by
  rw [Queries.UpsertFile]
  cases hf : s.files.find? (fun f => f.workspaceID == wid && f.filePath == path) with
  | none => exact ⟨rfl, rfl, rfl, rfl, rfl⟩
  | some old =>
    have hp := List.find?_some hf
    simp only [Bool.and_eq_true, beq_iff_eq] at hp
    exact ⟨rfl, rfl, rfl, hp.1, hp.2⟩

/-- A quota-rejected upload returns the quota error and the untouched state. -/
theorem upload_reject_eq (s : DBState) (req : FileUploadRequest) (userID : Nat)
    (ws : Workspace)
    (h1 : Queries.GetWorkspaceByID s req.workspaceID = some ws)
    (h2 : ws.userID = userID)
    (h3 : projectedUsage s req > ws.storageLimitBytes) :
    FileService.UploadFile s req userID =
      (.error (.storageLimitExceeded (projectedUsage s req) ws.storageLimitBytes), s) := by
  simp only [projectedUsage, existingFileSize, workspaceUsed, h1] at h3 ⊢
  rw [FileService.UploadFile]
  simp only [Queries.GetWorkspaceStorageUsage, h1, Option.map_some', h2, ne_eq,
    not_true_eq_false, if_false, ite_false]
  rw [if_pos h3]

/-- Anatomy of a successful upload: the authorization and precheck facts it
implies, and the exact result and final state it produces. -/
theorem upload_ok_inv (s : DBState) (req : FileUploadRequest) (userID : Nat)
    (fi : FileInfo) (s2 : DBState)
    (h : FileService.UploadFile s req userID = (.ok fi, s2)) :
    ∃ ws, Queries.GetWorkspaceByID s req.workspaceID = some ws ∧ ws.userID = userID ∧
      projectedUsage s req ≤ ws.storageLimitBytes ∧
      FileService.UploadFile s req userID =
        (let s1 := (Queries.CreateSyncOperation s req.workspaceID "upload" req.clientID "pending").2
         let opID := (Queries.CreateSyncOperation s req.workspaceID "upload" req.clientID "pending").1.id
         let upsertRes := Queries.UpsertFile s1 req.workspaceID req.filePath (sha256Hex req.content)
           req.content (req.content.length : Int)
           (FileService.detectMimeType req.filePath req.content) req.lastModified
         let s3 := Queries.UpdateWorkspaceStorageUsed upsertRes.2 req.workspaceID (projectedUsage s req)
         let s4 := match Queries.CreateFileVersion s3 upsertRes.1.id 1 (sha256Hex req.content) req.content with
           | some s4 => s4
           | none => s3
         (.ok upsertRes.1.toFileInfo, Queries.UpdateSyncOperationStatus s4 opID "success" none)) := by
  cases hw : Queries.GetWorkspaceByID s req.workspaceID with
  | none =>
    simp [FileService.UploadFile, hw] at h
  | some ws =>
    by_cases hu : ws.userID = userID
    · by_cases hq : projectedUsage s req > ws.storageLimitBytes
      · rw [upload_reject_eq s req userID ws hw hu hq] at h
        simp at h
      · exact ⟨ws, rfl, hu, not_lt.mp hq,
          upload_success_unfold s req userID ws hw hu (not_lt.mp hq)⟩
    · simp [FileService.UploadFile, hw, hu] at h

@[simp] theorem fileVersions_CreateSyncOperation (s : DBState) (wid : Nat) (t c st : String) :
    (Queries.CreateSyncOperation s wid t c st).2.fileVersions = s.fileVersions := rfl

@[simp] theorem fileVersions_UpdateSyncOperationStatus (s : DBState) (opID : Nat)
    (st : String) (em : Option String) :
    (Queries.UpdateSyncOperationStatus s opID st em).fileVersions = s.fileVersions := rfl

@[simp] theorem fileVersions_UpdateWorkspaceStorageUsed (s : DBState) (wid : Nat) (used : Int) :
    (Queries.UpdateWorkspaceStorageUsed s wid used).fileVersions = s.fileVersions := rfl

@[simp] theorem fileVersions_UpsertFile (s : DBState) (wid : Nat) (path ch : String)
    (c : List Nat) (sz : Int) (mt : String) (lm : Nat) :
    (Queries.UpsertFile s wid path ch c sz mt lm).2.fileVersions = s.fileVersions := by
  rw [Queries.UpsertFile]
  cases s.files.find? (fun f => f.workspaceID == wid && f.filePath == path) <;> rfl

/-- **C3** A quota-rejected upload returns the error with the state untouched:
no sync-operation audit row, no file change, no usage change, no version row. -/
theorem upload_quota_reject_no_side_effects (s : DBState) (req : FileUploadRequest)
    (userID : Nat) (ws : Workspace)
    (h1 : Queries.GetWorkspaceByID s req.workspaceID = some ws)
    (h2 : ws.userID = userID)
    (h3 : projectedUsage s req > ws.storageLimitBytes) :
    FileService.UploadFile s req userID =
      (.error (.storageLimitExceeded (projectedUsage s req) ws.storageLimitBytes), s) ∧
    (FileService.UploadFile s req userID).2.syncOperations = s.syncOperations ∧
    (FileService.UploadFile s req userID).2.files = s.files ∧
    (FileService.UploadFile s req userID).2.workspaces = s.workspaces ∧
    (FileService.UploadFile s req userID).2.fileVersions = s.fileVersions := by
  have h := upload_reject_eq s req userID ws h1 h2 h3
  exact ⟨h, by rw [h], by rw [h], by rw [h], by rw [h]⟩

/-- **C4** A successful upload returns the content's byte length as the size
and the lowercase-hex SHA-256 digest of the content as the hash. -/
theorem upload_result_size_and_hash (s : DBState) (req : FileUploadRequest)
    (userID : Nat) (fi : FileInfo)
    (h : (FileService.UploadFile s req userID).1 = .ok fi) :
    fi.sizeBytes = (req.content.length : Int) ∧
    fi.contentHash = hexOfBytes (sha256 req.content) := by
  have hpair : FileService.UploadFile s req userID =
      (.ok fi, (FileService.UploadFile s req userID).2) := by
    rw [← h]
  obtain ⟨ws, hw, hu, hq, heq⟩ := upload_ok_inv s req userID fi _ hpair
  rw [heq] at hpair
  simp only [Prod.mk.injEq, Except.ok.injEq] at hpair
  obtain ⟨hfi, -⟩ := hpair
  subst hfi
  obtain ⟨hch, hsz, -, -, -⟩ := UpsertFile_fst
    (Queries.CreateSyncOperation s req.workspaceID "upload" req.clientID "pending").2
    req.workspaceID req.filePath (sha256Hex req.content) req.content
    (req.content.length : Int) (FileService.detectMimeType req.filePath req.content)
    req.lastModified
  exact ⟨hsz, hch⟩

/-- **C5** A principal who does not own the workspace is denied every
operation, for every path, with the state untouched. -/
theorem non_owner_access_denied (s : DBState) (wid : Nat) (userID : Nat) (ws : Workspace)
    (h1 : Queries.GetWorkspaceByID s wid = some ws)
    (h2 : ws.userID ≠ userID) :
    (∀ req : FileUploadRequest, req.workspaceID = wid →
      FileService.UploadFile s req userID = (.error .accessDenied, s))
    ∧ (∀ path, FileService.GetFile s wid path userID = .error .accessDenied)
    ∧ (∀ path, FileService.GetFileContent s wid path userID = .error .accessDenied)
    ∧ FileService.ListFiles s wid userID = .error .accessDenied
    ∧ (∀ path, FileService.DeleteFile s wid path userID = (.error .accessDenied, s)) := by
  refine ⟨?_, ?_, ?_, ?_, ?_⟩
  · intro req hreq
    rw [FileService.UploadFile, hreq, h1]
    simp [h2]
  · intro path
    rw [FileService.GetFile, h1]
    simp [h2]
  · intro path
    rw [FileService.GetFileContent, h1]
    simp [h2]
  · rw [FileService.ListFiles, h1]
    simp [h2]
  · intro path
    rw [FileService.DeleteFile, h1]
    simp [h2]

/-- **C6** Deleting an existing file removes its row and decrements the
workspace usage by exactly the file's size. -/
theorem delete_reverses_accounting (s : DBState) (wid : Nat) (path : String)
    (userID : Nat) (ws : Workspace) (f : File)
    (h1 : Queries.GetWorkspaceByID s wid = some ws)
    (h2 : ws.userID = userID)
    (h3 : Queries.GetFile s wid path = some f) :
    (FileService.DeleteFile s wid path userID).1 = .ok () ∧
    workspaceUsed (FileService.DeleteFile s wid path userID).2 wid =
      workspaceUsed s wid - f.sizeBytes ∧
    Queries.GetFile (FileService.DeleteFile s wid path userID).2 wid path = none := by
  have hdel : FileService.DeleteFile s wid path userID =
      (.ok (), Queries.UpdateWorkspaceStorageUsed (Queries.DeleteFile s wid path) wid
        (ws.storageUsedBytes - f.sizeBytes)) := by
    rw [FileService.DeleteFile]
    simp only [h1, h2, ne_eq, not_true_eq_false, if_false, ite_false, h3]
  rw [hdel]
  refine ⟨rfl, ?_, ?_⟩
  · rw [workspaceUsed, workspaceUsed, h1]
    rw [GetWorkspaceByID_update _ wid _ ws (by simp [h1])]
  · rw [GetFile_UpdateWorkspaceStorageUsed]
    rw [Queries.GetFile, Queries.DeleteFile]
    refine List.find?_eq_none.mpr ?_
    intro x hx
    rw [List.mem_filter] at hx
    simp only [Bool.not_eq_true'] at hx
    simp [hx.2]

/-- Deleting at a path with no file returns `NotFound` with the state
untouched. -/
theorem delete_not_found_eq (s : DBState) (wid : Nat) (path : String)
    (userID : Nat) (ws : Workspace)
    (h1 : Queries.GetWorkspaceByID s wid = some ws)
    (h2 : ws.userID = userID)
    (h3 : Queries.GetFile s wid path = none) :
    FileService.DeleteFile s wid path userID = (.error .fileNotFound, s) := by
  rw [FileService.DeleteFile]
  simp only [h1, h2, ne_eq, not_true_eq_false, if_false, ite_false, h3]

/-- **C8** Deleting a path with no file is a `NotFound` error, not a no-op
success, and leaves the state unchanged. -/
theorem delete_missing_file_not_found (s : DBState) (wid : Nat) (path : String)
    (userID : Nat) (ws : Workspace)
    (h1 : Queries.GetWorkspaceByID s wid = some ws)
    (h2 : ws.userID = userID)
    (h3 : Queries.GetFile s wid path = none) :
    FileService.DeleteFile s wid path userID = (.error .fileNotFound, s) :=
  delete_not_found_eq s wid path userID ws h1 h2 h3

/-- **C7** Every upload records a version row numbered 1 (never incremented):
after a successful upload the uploaded file's history contains version 1, and
any version row the upload added carries number 1; hence after any number of
uploads to one path the history still holds exactly version 1. -/
theorem upload_version_always_one (s : DBState) (req : FileUploadRequest)
    (userID : Nat) (fi : FileInfo)
    (h : (FileService.UploadFile s req userID).1 = .ok fi) :
    ((FileService.UploadFile s req userID).2.fileVersions.any
      (fun v => v.fileID == fi.id && v.versionNumber == 1)) = true ∧
    ∀ v ∈ (FileService.UploadFile s req userID).2.fileVersions,
      v ∈ s.fileVersions ∨ v.versionNumber = 1 := by
  have hpair : FileService.UploadFile s req userID =
      (.ok fi, (FileService.UploadFile s req userID).2) := by
    rw [← h]
  obtain ⟨ws, hw, hu, hq, heq⟩ := upload_ok_inv s req userID fi _ hpair
  rw [heq] at hpair ⊢
  simp only [Prod.mk.injEq, Except.ok.injEq] at hpair
  obtain ⟨hfi, -⟩ := hpair
  subst hfi
  simp only [fileVersions_UpdateSyncOperationStatus]
  rw [Queries.CreateFileVersion]
  simp only [fileVersions_UpdateWorkspaceStorageUsed, fileVersions_UpsertFile,
    fileVersions_CreateSyncOperation]
  set fid := (Queries.UpsertFile
    (Queries.CreateSyncOperation s req.workspaceID "upload" req.clientID "pending").2
    req.workspaceID req.filePath (sha256Hex req.content) req.content
    (req.content.length : Int) (FileService.detectMimeType req.filePath req.content)
    req.lastModified).1.id with hfid
  by_cases hv : (s.fileVersions.any fun v => v.fileID == fid && v.versionNumber == 1) = true
  · rw [if_pos hv]
    simp only [fileVersions_UpdateWorkspaceStorageUsed, fileVersions_UpsertFile,
      fileVersions_CreateSyncOperation]
    exact ⟨hv, fun v hv2 => Or.inl hv2⟩
  · rw [if_neg hv]
    constructor
    · simp [List.any_append, File.toFileInfo]
    · intro v hv2
      simp only [List.mem_append, List.mem_singleton] at hv2
      rcases hv2 with h2 | h2
      · exact Or.inl h2
      · right
        rw [h2]

/-- **C10** Round-trip: after a successful upload, reading the file's content
back (same workspace, same path, same principal) returns exactly the uploaded
bytes, with matching size and digest in the returned metadata. -/
theorem upload_getContent_roundtrip (s : DBState) (req : FileUploadRequest)
    (userID : Nat) (fi : FileInfo)
    (h : (FileService.UploadFile s req userID).1 = .ok fi) :
    FileService.GetFileContent (FileService.UploadFile s req userID).2
        req.workspaceID req.filePath userID =
      .ok { fileInfo := fi, content := req.content } ∧
    fi.sizeBytes = (req.content.length : Int) ∧
    fi.contentHash = hexOfBytes (sha256 req.content) := by
  have hpair : FileService.UploadFile s req userID =
      (.ok fi, (FileService.UploadFile s req userID).2) := by
    rw [← h]
  obtain ⟨ws, hw, hu, hq, heq⟩ := upload_ok_inv s req userID fi _ hpair
  rw [heq] at hpair
  simp only [Prod.mk.injEq, Except.ok.injEq] at hpair
  obtain ⟨hfi, -⟩ := hpair
  obtain ⟨hch, hsz, hc, -, -⟩ := UpsertFile_fst
    (Queries.CreateSyncOperation s req.workspaceID "upload" req.clientID "pending").2
    req.workspaceID req.filePath (sha256Hex req.content) req.content
    (req.content.length : Int) (FileService.detectMimeType req.filePath req.content)
    req.lastModified
  refine ⟨?_, ?_, ?_⟩
  · rw [heq, FileService.GetFileContent]
    have hwfinal : Queries.GetWorkspaceByID
        (Queries.UpdateSyncOperationStatus
          (match Queries.CreateFileVersion
            (Queries.UpdateWorkspaceStorageUsed
              (Queries.UpsertFile
                (Queries.CreateSyncOperation s req.workspaceID "upload" req.clientID "pending").2
                req.workspaceID req.filePath (sha256Hex req.content) req.content
                (req.content.length : Int)
                (FileService.detectMimeType req.filePath req.content) req.lastModified).2
              req.workspaceID (projectedUsage s req))
            (Queries.UpsertFile
              (Queries.CreateSyncOperation s req.workspaceID "upload" req.clientID "pending").2
              req.workspaceID req.filePath (sha256Hex req.content) req.content
              (req.content.length : Int)
              (FileService.detectMimeType req.filePath req.content) req.lastModified).1.id
            1 (sha256Hex req.content) req.content with
          | some s4 => s4
          | none => Queries.UpdateWorkspaceStorageUsed
              (Queries.UpsertFile
                (Queries.CreateSyncOperation s req.workspaceID "upload" req.clientID "pending").2
                req.workspaceID req.filePath (sha256Hex req.content) req.content
                (req.content.length : Int)
                (FileService.detectMimeType req.filePath req.content) req.lastModified).2
              req.workspaceID (projectedUsage s req))
          (Queries.CreateSyncOperation s req.workspaceID "upload" req.clientID "pending").1.id
          "success" none) req.workspaceID =
        some { ws with storageUsedBytes := projectedUsage s req } := by
      simp only [GetWorkspaceByID_UpdateSyncOperationStatus, GetWorkspaceByID_versionStep]
      exact GetWorkspaceByID_update _ _ _ ws (by simp [hw])
    rw [hwfinal]
    have hufinal : Queries.GetFile
        (Queries.UpdateSyncOperationStatus
          (match Queries.CreateFileVersion
            (Queries.UpdateWorkspaceStorageUsed
              (Queries.UpsertFile
                (Queries.CreateSyncOperation s req.workspaceID "upload" req.clientID "pending").2
                req.workspaceID req.filePath (sha256Hex req.content) req.content
                (req.content.length : Int)
                (FileService.detectMimeType req.filePath req.content) req.lastModified).2
              req.workspaceID (projectedUsage s req))
            (Queries.UpsertFile
              (Queries.CreateSyncOperation s req.workspaceID "upload" req.clientID "pending").2
              req.workspaceID req.filePath (sha256Hex req.content) req.content
              (req.content.length : Int)
              (FileService.detectMimeType req.filePath req.content) req.lastModified).1.id
            1 (sha256Hex req.content) req.content with
          | some s4 => s4
          | none => Queries.UpdateWorkspaceStorageUsed
              (Queries.UpsertFile
                (Queries.CreateSyncOperation s req.workspaceID "upload" req.clientID "pending").2
                req.workspaceID req.filePath (sha256Hex req.content) req.content
                (req.content.length : Int)
                (FileService.detectMimeType req.filePath req.content) req.lastModified).2
              req.workspaceID (projectedUsage s req))
          (Queries.CreateSyncOperation s req.workspaceID "upload" req.clientID "pending").1.id
          "success" none) req.workspaceID req.filePath =
        some (Queries.UpsertFile
          (Queries.CreateSyncOperation s req.workspaceID "upload" req.clientID "pending").2
          req.workspaceID req.filePath (sha256Hex req.content) req.content
          (req.content.length : Int) (FileService.detectMimeType req.filePath req.content)
          req.lastModified).1 := by
      simp only [GetFile_UpdateSyncOperationStatus, GetFile_versionStep,
        GetFile_UpdateWorkspaceStorageUsed]
      exact GetFile_UpsertFile _ _ _ _ _ _ _ _
    simp only [hu, ne_eq, not_true_eq_false, if_false, ite_false]
    simp only [hufinal]
    rw [hfi, hc]
  · rw [← hfi]
    exact hsz
  · rw [← hfi]
    exact hch

/-! ### List-level accounting lemmas for the quota invariant -/

theorem sizeSumL_nil (wid : Nat) : sizeSumL [] wid = 0 := rfl

theorem sizeSumL_cons (a : File) (t : List File) (wid : Nat) :
    sizeSumL (a :: t) wid =
      (if a.workspaceID == wid then a.sizeBytes else 0) + sizeSumL t wid := by
  simp [sizeSumL]

theorem filesSizeSum_eq_sizeSumL (s : DBState) (wid : Nat) :
    filesSizeSum s wid = sizeSumL s.files wid := by
  rw [filesSizeSum]
  suffices h : ∀ l : List File,
      ((l.filter (fun f => f.workspaceID == wid)).map (fun f => f.sizeBytes)).sum =
        sizeSumL l wid from h s.files
  intro l
  induction l with
  | nil => simp [sizeSumL]
  | cons a t ih =>
    by_cases hq : (a.workspaceID == wid) = true <;>
      simp [List.filter_cons, hq, sizeSumL_cons, ih]

theorem sizeSumL_append (l₁ l₂ : List File) (wid : Nat) :
    sizeSumL (l₁ ++ l₂) wid = sizeSumL l₁ wid + sizeSumL l₂ wid := by
  simp [sizeSumL]

theorem map_eq_self {α : Type} {f : α → α} :
    ∀ {l : List α}, (∀ a ∈ l, f a = a) → l.map f = l := by
  intro l h
  induction l with
  | nil => rfl
  | cons a t ih =>
    simp only [List.map_cons, h a (by simp)]
    rw [ih (fun b hb => h b (by simp [hb]))]

/-- Replacing the unique row at a key rewrites its size; every other row's
contribution is untouched. -/
theorem sizeSumL_upsert_update (wid : Nat) (path ch : String) (c : List Nat)
    (sz : Int) (mt : String) (lm now : Nat) :
    ∀ (l : List File) (old : File),
      l.find? (fun f => f.workspaceID == wid && f.filePath == path) = some old →
      UniqueKeys l →
      sizeSumL (l.map (fun f =>
        if f.workspaceID == wid && f.filePath == path then
          { f with
              contentHash := ch,
              content := c,
              sizeBytes := sz,
              mimeType := mt,
              lastModified := lm,
              updatedAt := now }
        else f)) wid
        = sizeSumL l wid - old.sizeBytes + sz := by
  intro l
  induction l with
  | nil => intro old h _; simp at h
  | cons a t ih =>
    intro old hfind huniq
    rw [UniqueKeys, List.pairwise_cons] at huniq
    obtain ⟨ha, ht⟩ := huniq
    rw [List.find?_cons] at hfind
    rcases hpa : (a.workspaceID == wid && a.filePath == path) with _ | _
    · rw [hpa] at hfind
      simp only [List.map_cons, hpa, Bool.false_eq_true, if_false, ite_false]
      rw [sizeSumL_cons, sizeSumL_cons, ih old hfind ht]
      omega
    · rw [hpa] at hfind
      cases hfind
      have hpa' := hpa
      simp only [Bool.and_eq_true, beq_iff_eq] at hpa'
      have htid : ∀ b ∈ t, (fun f =>
          if f.workspaceID == wid && f.filePath == path then
            { f with
                contentHash := ch,
                content := c,
                sizeBytes := sz,
                mimeType := mt,
                lastModified := lm,
                updatedAt := now }
          else f) b = b := by
        intro b hb
        have hb' : (b.workspaceID == wid && b.filePath == path) = false := by
          rcases hab : (b.workspaceID == wid && b.filePath == path) with _ | _
          · rfl
          · simp only [Bool.and_eq_true, beq_iff_eq] at hab
            exact absurd ⟨hpa'.1.trans hab.1.symm, hpa'.2.trans hab.2.symm⟩ (ha b hb)
        simp only [hb', Bool.false_eq_true, if_false, ite_false]
      simp only [List.map_cons, map_eq_self htid, hpa, if_true]
      rw [sizeSumL_cons, sizeSumL_cons]
      have hwa : (a.workspaceID == wid) = true := by simp [hpa'.1]
      simp only [hwa, if_true]
      omega

/-- Deleting the unique row at a key subtracts its size. -/
theorem sizeSumL_delete (wid : Nat) (path : String) :
    ∀ (l : List File) (old : File),
      l.find? (fun f => f.workspaceID == wid && f.filePath == path) = some old →
      UniqueKeys l →
      sizeSumL (l.filter (fun f => !(f.workspaceID == wid && f.filePath == path))) wid
        = sizeSumL l wid - old.sizeBytes := by
  intro l
  induction l with
  | nil => intro old h _; simp at h
  | cons a t ih =>
    intro old hfind huniq
    rw [UniqueKeys, List.pairwise_cons] at huniq
    obtain ⟨ha, ht⟩ := huniq
    rw [List.find?_cons] at hfind
    rcases hpa : (a.workspaceID == wid && a.filePath == path) with _ | _
    · rw [hpa] at hfind
      rw [List.filter_cons]
      simp only [hpa, Bool.not_false, if_pos]
      rw [sizeSumL_cons, sizeSumL_cons, ih old hfind ht]
      omega
    · rw [hpa] at hfind
      cases hfind
      have hpa' := hpa
      simp only [Bool.and_eq_true, beq_iff_eq] at hpa'
      have htfilter : t.filter (fun f => !(f.workspaceID == wid && f.filePath == path)) = t := by
        apply List.filter_eq_self.mpr
        intro b hb
        have hb' : (b.workspaceID == wid && b.filePath == path) = false := by
          rcases hab : (b.workspaceID == wid && b.filePath == path) with _ | _
          · rfl
          · simp only [Bool.and_eq_true, beq_iff_eq] at hab
            exact absurd ⟨hpa'.1.trans hab.1.symm, hpa'.2.trans hab.2.symm⟩ (ha b hb)
        simp [hb']
      rw [List.filter_cons]
      simp only [hpa, Bool.not_true, Bool.false_eq_true, if_false, ite_false, htfilter]
      rw [sizeSumL_cons]
      have hwa : (a.workspaceID == wid) = true := by simp [hpa'.1]
      simp only [hwa, if_true]
      omega

theorem uniqueKeys_map_upsert (wid : Nat) (path ch : String) (c : List Nat)
    (sz : Int) (mt : String) (lm now : Nat) (l : List File) (h : UniqueKeys l) :
    UniqueKeys (l.map (fun f =>
      if f.workspaceID == wid && f.filePath == path then
        { f with
            contentHash := ch,
            content := c,
            sizeBytes := sz,
            mimeType := mt,
            lastModified := lm,
            updatedAt := now }
      else f)) := by
  rw [UniqueKeys, List.pairwise_map]
  refine h.imp ?_
  intro f g hfg
  rcases hf : (f.workspaceID == wid && f.filePath == path) with _ | _ <;>
    rcases hg : (g.workspaceID == wid && g.filePath == path) with _ | _ <;>
    simp [hf, hg] <;> intro h1 h2 <;> exact hfg ⟨h1, h2⟩

theorem uniqueKeys_append_new (wid : Nat) (path : String) (fnew : File) (l : List File)
    (hk : fnew.workspaceID = wid ∧ fnew.filePath = path)
    (hnone : l.find? (fun f => f.workspaceID == wid && f.filePath == path) = none)
    (h : UniqueKeys l) : UniqueKeys (l ++ [fnew]) := by
  rw [UniqueKeys, List.pairwise_append]
  refine ⟨h, List.pairwise_singleton _ _, ?_⟩
  intro a ha b hb
  rw [List.mem_singleton] at hb
  subst hb
  have hfa := List.find?_eq_none.mp hnone a ha
  simp only [Bool.and_eq_true, beq_iff_eq, not_and] at hfa
  rintro ⟨h1, h2⟩
  exact hfa (h1.trans hk.1) (h2.trans hk.2)

theorem uniqueKeys_filter (q : File → Bool) (l : List File) (h : UniqueKeys l) :
    UniqueKeys (l.filter q) :=
  List.Pairwise.sublist (List.filter_sublist l) h

/-! ### The quota invariant and its preservation -/

@[simp] theorem files_CreateSyncOperation (s : DBState) (wid : Nat) (t c st : String) :
    (Queries.CreateSyncOperation s wid t c st).2.files = s.files := rfl

@[simp] theorem now_CreateSyncOperation (s : DBState) (wid : Nat) (t c st : String) :
    (Queries.CreateSyncOperation s wid t c st).2.now = s.now := rfl

@[simp] theorem nextID_CreateSyncOperation (s : DBState) (wid : Nat) (t c st : String) :
    (Queries.CreateSyncOperation s wid t c st).2.nextID = s.nextID + 1 := rfl

@[simp] theorem files_UpdateSyncOperationStatus (s : DBState) (opID : Nat)
    (st : String) (em : Option String) :
    (Queries.UpdateSyncOperationStatus s opID st em).files = s.files := rfl

@[simp] theorem files_UpdateWorkspaceStorageUsed (s : DBState) (wid : Nat) (used : Int) :
    (Queries.UpdateWorkspaceStorageUsed s wid used).files = s.files := rfl

@[simp] theorem files_versionStep (s : DBState) (fid v : Nat) (ch : String) (c : List Nat) :
    (match Queries.CreateFileVersion s fid v ch c with
      | some s2 => s2
      | none => s).files = s.files := by
  rw [Queries.CreateFileVersion]
  by_cases h : (s.fileVersions.any fun w => w.fileID == fid && w.versionNumber == v) = true <;>
    simp [h]

@[simp] theorem workspaces_CreateSyncOperation (s : DBState) (wid : Nat) (t c st : String) :
    (Queries.CreateSyncOperation s wid t c st).2.workspaces = s.workspaces := rfl

@[simp] theorem workspaces_UpdateSyncOperationStatus (s : DBState) (opID : Nat)
    (st : String) (em : Option String) :
    (Queries.UpdateSyncOperationStatus s opID st em).workspaces = s.workspaces := rfl

@[simp] theorem workspaces_UpsertFile (s : DBState) (wid : Nat) (path ch : String)
    (c : List Nat) (sz : Int) (mt : String) (lm : Nat) :
    (Queries.UpsertFile s wid path ch c sz mt lm).2.workspaces = s.workspaces := by
  rw [Queries.UpsertFile]
  cases s.files.find? (fun f => f.workspaceID == wid && f.filePath == path) <;> rfl

@[simp] theorem workspaces_versionStep (s : DBState) (fid v : Nat) (ch : String) (c : List Nat) :
    (match Queries.CreateFileVersion s fid v ch c with
      | some s2 => s2
      | none => s).workspaces = s.workspaces := by
  rw [Queries.CreateFileVersion]
  by_cases h : (s.fileVersions.any fun w => w.fileID == fid && w.versionNumber == v) = true <;>
    simp [h]

/-- A successful upload preserves the quota invariant. -/
theorem quotaInv_upload_success (s : DBState) (req : FileUploadRequest) (userID : Nat)
    (ws : Workspace)
    (hw : Queries.GetWorkspaceByID s req.workspaceID = some ws)
    (hu : ws.userID = userID)
    (hq : projectedUsage s req ≤ ws.storageLimitBytes)
    (hws : ∀ w ∈ s.workspaces, w.id = req.workspaceID)
    (huk : UniqueKeys s.files)
    (hsum : workspaceUsed s req.workspaceID = filesSizeSum s req.workspaceID) :
    QuotaInv (FileService.UploadFile s req userID).2 req.workspaceID := by
  rw [upload_success_unfold s req userID ws hw hu hq]
  have hcount : workspaceUsed (Queries.UpdateSyncOperationStatus
      (match Queries.CreateFileVersion
        (Queries.UpdateWorkspaceStorageUsed
          (Queries.UpsertFile (Queries.CreateSyncOperation s req.workspaceID "upload" req.clientID "pending").2
            req.workspaceID req.filePath (sha256Hex req.content) req.content
            (req.content.length : Int) (FileService.detectMimeType req.filePath req.content)
            req.lastModified).2
          req.workspaceID (projectedUsage s req))
        (Queries.UpsertFile (Queries.CreateSyncOperation s req.workspaceID "upload" req.clientID "pending").2
            req.workspaceID req.filePath (sha256Hex req.content) req.content
            (req.content.length : Int) (FileService.detectMimeType req.filePath req.content)
            req.lastModified).1.id 1 (sha256Hex req.content) req.content with
        | some s4 => s4
        | none => Queries.UpdateWorkspaceStorageUsed
            (Queries.UpsertFile (Queries.CreateSyncOperation s req.workspaceID "upload" req.clientID "pending").2
              req.workspaceID req.filePath (sha256Hex req.content) req.content
              (req.content.length : Int) (FileService.detectMimeType req.filePath req.content)
              req.lastModified).2
            req.workspaceID (projectedUsage s req))
      (Queries.CreateSyncOperation s req.workspaceID "upload" req.clientID "pending").1.id
      "success" none) req.workspaceID = projectedUsage s req := by
    rw [workspaceUsed]
    simp only [GetWorkspaceByID_UpdateSyncOperationStatus, GetWorkspaceByID_versionStep]
    rw [GetWorkspaceByID_update _ req.workspaceID (projectedUsage s req) ws (by simp [hw])]
  refine ⟨?_, ?_, ?_⟩
  · intro w2 hw2
    simp only [workspaces_UpdateSyncOperationStatus, workspaces_versionStep,
      Queries.UpdateWorkspaceStorageUsed, workspaces_UpsertFile,
      workspaces_CreateSyncOperation] at hw2
    rcases List.mem_map.mp hw2 with ⟨w, hwmem, rfl⟩
    rcases hid : (w.id == req.workspaceID) with _ | _ <;> simp [hid] <;> exact hws w hwmem
  · simp only [files_UpdateSyncOperationStatus, files_versionStep,
      files_UpdateWorkspaceStorageUsed]
    rw [Queries.UpsertFile]
    simp only [files_CreateSyncOperation, now_CreateSyncOperation,
      nextID_CreateSyncOperation]
    cases hf : s.files.find? (fun f => f.workspaceID == req.workspaceID &&
        f.filePath == req.filePath) with
    | some old =>
      exact uniqueKeys_map_upsert _ _ _ _ _ _ _ _ _ huk
    | none =>
      exact uniqueKeys_append_new req.workspaceID req.filePath _ _ ⟨rfl, rfl⟩ hf huk
  · rw [hcount, filesSizeSum_eq_sizeSumL]
    simp only [files_UpdateSyncOperationStatus, files_versionStep,
      files_UpdateWorkspaceStorageUsed]
    rw [Queries.UpsertFile]
    simp only [files_CreateSyncOperation, now_CreateSyncOperation,
      nextID_CreateSyncOperation]
    rw [filesSizeSum_eq_sizeSumL] at hsum
    cases hf : s.files.find? (fun f => f.workspaceID == req.workspaceID &&
        f.filePath == req.filePath) with
    | some old =>
      rw [sizeSumL_upsert_update _ _ _ _ _ _ _ _ _ _ hf huk]
      simp only [projectedUsage, existingFileSize, Queries.GetFile, hf]
      omega
    | none =>
      rw [sizeSumL_append, sizeSumL_cons, sizeSumL_nil]
      simp only [projectedUsage, existingFileSize, Queries.GetFile, hf,
        beq_self_eq_true, if_true]
      omega


/-- A successful delete preserves the quota invariant. -/
theorem quotaInv_delete_success (s : DBState) (wid : Nat) (path : String) (userID : Nat)
    (ws : Workspace) (f : File)
    (hw : Queries.GetWorkspaceByID s wid = some ws)
    (hu : ws.userID = userID)
    (hf : Queries.GetFile s wid path = some f)
    (hws : ∀ w ∈ s.workspaces, w.id = wid)
    (huk : UniqueKeys s.files)
    (hsum : workspaceUsed s wid = filesSizeSum s wid) :
    QuotaInv (FileService.DeleteFile s wid path userID).2 wid := by
  have hdel : FileService.DeleteFile s wid path userID =
      (.ok (), Queries.UpdateWorkspaceStorageUsed (Queries.DeleteFile s wid path) wid
        (ws.storageUsedBytes - f.sizeBytes)) := by
    rw [FileService.DeleteFile]
    simp only [hw, hu, ne_eq, not_true_eq_false, if_false, ite_false, hf]
  rw [hdel]
  refine ⟨?_, ?_, ?_⟩
  · intro w2 hw2
    simp only [Queries.UpdateWorkspaceStorageUsed, Queries.DeleteFile] at hw2
    rcases List.mem_map.mp hw2 with ⟨w, hwmem, rfl⟩
    rcases hid : (w.id == wid) with _ | _ <;> simp [hid] <;> exact hws w hwmem
  · simp only [files_UpdateWorkspaceStorageUsed, Queries.DeleteFile]
    exact uniqueKeys_filter _ _ huk
  · have hcount : workspaceUsed (Queries.UpdateWorkspaceStorageUsed
        (Queries.DeleteFile s wid path) wid (ws.storageUsedBytes - f.sizeBytes)) wid =
        ws.storageUsedBytes - f.sizeBytes := by
      rw [workspaceUsed]
      rw [GetWorkspaceByID_update _ wid _ ws (by simp [hw])]
    rw [hcount, filesSizeSum_eq_sizeSumL]
    simp only [files_UpdateWorkspaceStorageUsed, Queries.DeleteFile]
    rw [Queries.GetFile] at hf
    rw [sizeSumL_delete _ _ _ _ hf huk]
    rw [filesSizeSum_eq_sizeSumL] at hsum
    have hused : workspaceUsed s wid = ws.storageUsedBytes := by
      rw [workspaceUsed, hw]
    omega

/-- Every single sequential operation preserves the quota invariant. -/
theorem quotaInv_applyOperation (s : DBState) (wid : Nat) (op : Operation)
    (h : QuotaInv s wid) : QuotaInv (applyOperation s op) wid := by
  obtain ⟨hws, huk, hsum⟩ := h
  cases op with
  | upload req userID =>
    rw [applyOperation]
    cases hw : Queries.GetWorkspaceByID s req.workspaceID with
    | none =>
      rw [FileService.UploadFile, hw]
      exact ⟨hws, huk, hsum⟩
    | some ws =>
      have hwid : req.workspaceID = wid := by
        have hp := List.find?_some hw
        simp only [beq_iff_eq] at hp
        rw [← hp]
        exact hws ws (List.mem_of_find?_eq_some hw)
      by_cases hu : ws.userID = userID
      · by_cases hq : projectedUsage s req > ws.storageLimitBytes
        · rw [upload_reject_eq s req userID ws hw hu hq]
          exact ⟨hws, huk, hsum⟩
        · rw [← hwid] at hws hsum ⊢
          exact quotaInv_upload_success s req userID ws hw hu (not_lt.mp hq) hws huk hsum
      · rw [FileService.UploadFile, hw]
        simp only [hu, ne_eq, not_false_eq_true, if_true, ite_true]
        exact ⟨hws, huk, hsum⟩
  | delete dwid path userID =>
    rw [applyOperation]
    cases hw : Queries.GetWorkspaceByID s dwid with
    | none =>
      rw [FileService.DeleteFile, hw]
      exact ⟨hws, huk, hsum⟩
    | some ws =>
      have hwid : dwid = wid := by
        have hp := List.find?_some hw
        simp only [beq_iff_eq] at hp
        rw [← hp]
        exact hws ws (List.mem_of_find?_eq_some hw)
      by_cases hu : ws.userID = userID
      · cases hf : Queries.GetFile s dwid path with
        | none =>
          rw [delete_not_found_eq s dwid path userID ws hw hu hf]
          exact ⟨hws, huk, hsum⟩
        | some f =>
          rw [← hwid] at hws hsum ⊢
          exact quotaInv_delete_success s dwid path userID ws f hw hu hf hws huk hsum
      · rw [FileService.DeleteFile, hw]
        simp only [hu, ne_eq, not_false_eq_true, if_true, ite_true]
        exact ⟨hws, huk, hsum⟩

theorem quotaInv_runOperations (ops : List Operation) :
    ∀ (s : DBState) (wid : Nat), QuotaInv s wid → QuotaInv (runOperations s ops) wid := by
  induction ops with
  | nil => intro s wid h; exact h
  | cons op rest ih =>
    intro s wid h
    rw [runOperations, List.foldl_cons]
    exact ih _ wid (quotaInv_applyOperation s wid op h)

theorem quotaInv_initialState (wid userID : Nat) (limit : Int) :
    QuotaInv (initialState wid userID limit) wid := by
  refine ⟨?_, ?_, ?_⟩
  · intro w hw
    simp only [initialState, List.mem_singleton] at hw
    rw [hw]
  · exact List.Pairwise.nil
  · simp [initialState, workspaceUsed, Queries.GetWorkspaceByID, filesSizeSum]

/-- **C1** Starting from a fresh (empty, zero-usage) workspace, after every
sequential sequence of upload and delete operations — hence after each
individual operation of any such sequence — the workspace's
`storage_used_bytes` equals the sum of the `size_bytes` of the files currently
stored in it. -/
theorem sequential_storage_accounting (wid userID : Nat) (limit : Int)
    (ops : List Operation) :
    workspaceUsed (runOperations (initialState wid userID limit) ops) wid =
      filesSizeSum (runOperations (initialState wid userID limit) ops) wid :=
  (quotaInv_runOperations ops _ wid (quotaInv_initialState wid userID limit)).2.2

set_option maxRecDepth 16000

theorem upload_quota_precheck_witness :
    FileService.UploadFile scenarioState reqBig 7 =
      (.error (.storageLimitExceeded 110 100), scenarioState) ∧
    workspaceUsed (FileService.UploadFile scenarioState reqSmall 7).2 1 = 95 := by
  constructor
  · exact (upload_quota_precheck scenarioState reqBig 7 scenarioWorkspace
      (by decide) (by decide)).1 (by decide)
  · exact ((upload_quota_precheck scenarioState reqSmall 7 scenarioWorkspace
      (by decide) (by decide)).2 (by decide)).2

theorem upload_quota_reject_no_side_effects_witness :
    FileService.UploadFile scenarioState reqBig 7 =
      (.error (.storageLimitExceeded 110 100), scenarioState) ∧
    (FileService.UploadFile scenarioState reqBig 7).2.syncOperations =
      scenarioState.syncOperations ∧
    (FileService.UploadFile scenarioState reqBig 7).2.files = scenarioState.files ∧
    (FileService.UploadFile scenarioState reqBig 7).2.workspaces =
      scenarioState.workspaces ∧
    (FileService.UploadFile scenarioState reqBig 7).2.fileVersions =
      scenarioState.fileVersions :=
  upload_quota_reject_no_side_effects scenarioState reqBig 7 scenarioWorkspace
    (by decide) (by decide) (by decide)

theorem upload_result_size_and_hash_witness :
    fi0.sizeBytes = (reqSmall.content.length : Int) ∧
    fi0.contentHash = hexOfBytes (sha256 reqSmall.content) :=
  upload_result_size_and_hash scenarioState reqSmall 7 fi0 (by decide)

theorem non_owner_access_denied_witness :
    FileService.UploadFile scenarioState reqBig 8 = (.error .accessDenied, scenarioState) ∧
    FileService.GetFile scenarioState 1 "big.txt" 8 = .error .accessDenied ∧
    FileService.GetFileContent scenarioState 1 "big.txt" 8 = .error .accessDenied ∧
    FileService.ListFiles scenarioState 1 8 = .error .accessDenied ∧
    FileService.DeleteFile scenarioState 1 "big.txt" 8 = (.error .accessDenied, scenarioState) := by
  have h := non_owner_access_denied scenarioState 1 8 scenarioWorkspace (by decide) (by decide)
  exact ⟨h.1 reqBig rfl, h.2.1 "big.txt", h.2.2.1 "big.txt", h.2.2.2.1, h.2.2.2.2 "big.txt"⟩

theorem delete_reverses_accounting_witness :
    (FileService.DeleteFile scenarioState 1 "big.txt" 7).1 = .ok () ∧
    workspaceUsed (FileService.DeleteFile scenarioState 1 "big.txt" 7).2 1 = 0 ∧
    Queries.GetFile (FileService.DeleteFile scenarioState 1 "big.txt" 7).2 1 "big.txt" =
      none :=
  delete_reverses_accounting scenarioState 1 "big.txt" 7 scenarioWorkspace bigFile
    (by decide) (by decide) (by decide)

theorem upload_version_always_one_witness :
    ((FileService.UploadFile scenarioState reqSmall 7).2.fileVersions.any
      (fun v => v.fileID == fi0.id && v.versionNumber == 1)) = true ∧
    ∀ v ∈ (FileService.UploadFile scenarioState reqSmall 7).2.fileVersions,
      v ∈ scenarioState.fileVersions ∨ v.versionNumber = 1 :=
  upload_version_always_one scenarioState reqSmall 7 fi0 (by decide)

theorem delete_missing_file_not_found_witness :
    FileService.DeleteFile scenarioState 1 "missing.txt" 7 =
      (.error .fileNotFound, scenarioState) :=
  delete_missing_file_not_found scenarioState 1 "missing.txt" 7 scenarioWorkspace
    (by decide) (by decide) (by decide)

theorem upload_getContent_roundtrip_witness :
    FileService.GetFileContent (FileService.UploadFile scenarioState reqSmall 7).2
        1 "note.md" 7 =
      .ok { fileInfo := fi0, content := reqSmall.content } ∧
    fi0.sizeBytes = (reqSmall.content.length : Int) ∧
    fi0.contentHash = hexOfBytes (sha256 reqSmall.content) :=
  upload_getContent_roundtrip scenarioState reqSmall 7 fi0 (by decide)


end Noture
